import Mathlib

/-!
Verification of the paste storage core (src/paste.go).

The Go source is embedded shallowly: bytes are `Nat` values below 256, byte
slices are `List Nat`, nilable slices are `Option (List Nat)`, and the
filesystem (one storage unit per identifier, with extended-attribute
metadata) is an association list from filenames to file units.  Lifecycle
callbacks are modelled as explicit fields of each operation's result that
record whether (and with which paste) the callback was invoked.
-/

deriving instance DecidableEq for Except

/-- Alphabet of `base32Encoder` (src/paste.go line 15):
`base32.NewEncoding("abcdefghjkmnopqrstuvwxyz23456789")`. -/
def b32Alphabet : List Char := "abcdefghjkmnopqrstuvwxyz23456789".data

/-- Position of a character in an alphabet, counting from `i`.  Models the
decode map Go's `base32.NewEncoding` builds from the alphabet string. -/
def b32CharIndexAux (c : Char) : List Char → Nat → Option Nat
  | [], _ => none
  | a :: rest, i => if a = c then some i else b32CharIndexAux c rest (i + 1)

/-- Decode-map lookup for one character; `none` models `decodeMap[c] == 0xFF`. -/
def b32CharIndex (c : Char) : Option Nat :=
  b32CharIndexAux c b32Alphabet 0

/-- The eight 5-bit groups Go's base32 encoder extracts from one group of at
most five input bytes (absent bytes are zero), written with `/`, `*`, `%`
in place of the byte shifts of encoding/base32's `Encode`. -/
def encQuintets (b0 b1 b2 b3 b4 : Nat) : List Nat :=
  [b0 / 8,
   (b0 * 4 + b1 / 64) % 32,
   (b1 / 2) % 32,
   (b1 * 16 + b2 / 16) % 32,
   (b2 * 2 + b3 / 128) % 32,
   (b3 / 4) % 32,
   (b3 * 8 + b4 / 32) % 32,
   b4 % 32]

/-- Number of data (non-padding) characters an n-byte final group encodes to,
as in encoding/base32 (n = 1,2,3,4 give 2,4,5,7 characters; 5 gives 8). -/
def b32DataLen (n : Nat) : Nat :=
  if n = 1 then 2 else if n = 2 then 4 else if n = 3 then 5 else if n = 4 then 7 else 8

/-- Encode one group of at most five bytes: the data characters drawn from the
alphabet followed by `=` padding up to eight characters. -/
def encGroupChars (g : List Nat) : List Char :=
  ((encQuintets (g.getD 0 0) (g.getD 1 0) (g.getD 2 0) (g.getD 3 0) (g.getD 4 0)).take
      (b32DataLen g.length)).map (fun q => b32Alphabet.getD q '?')
    ++ List.replicate (8 - b32DataLen g.length) '='

/-- Base32-encode a byte sequence, five bytes per eight-character quantum,
padding only the final quantum: Go's `base32.Encoding.EncodeToString`. -/
def encodeChars : List Nat → List Char
  | [] => []
  | b0 :: b1 :: b2 :: b3 :: b4 :: (r :: rest) =>
    encGroupChars [b0, b1, b2, b3, b4] ++ encodeChars (r :: rest)
  | g => encGroupChars g

/-- String form of `encodeChars`, as returned by `EncodeToString`. -/
def encodeToString (bs : List Nat) : String :=
  String.mk (encodeChars bs)

/-- Decode every data character of a quantum through the decode map; any
character outside the alphabet makes the whole quantum corrupt. -/
def decDigits : List Char → Option (List Nat)
  | [] => some []
  | c :: rest =>
    match b32CharIndex c, decDigits rest with
    | some d, some ds => some (d :: ds)
    | _, _ => none

/-- Reassemble up to five bytes from up to eight 5-bit groups (absent groups
are zero), as in encoding/base32's `decode`. -/
def decBytes (d : List Nat) : List Nat :=
  [(d.getD 0 0) * 8 + (d.getD 1 0) / 4,
   ((d.getD 1 0) * 64 + (d.getD 2 0) * 2 + (d.getD 3 0) / 16) % 256,
   ((d.getD 3 0) * 16 + (d.getD 4 0) / 2) % 256,
   ((d.getD 4 0) * 128 + (d.getD 5 0) * 4 + (d.getD 6 0) / 8) % 256,
   ((d.getD 6 0) * 32 + (d.getD 7 0)) % 256]

/-- Number of bytes carried by a quantum with `dlen` data characters. -/
def b32ByteLen (dlen : Nat) : Nat :=
  if dlen = 2 then 1 else if dlen = 4 then 2 else if dlen = 5 then 3
    else if dlen = 7 then 4 else if dlen = 8 then 5 else 0

/-- Data-character counts a quantum may legally have (Go rejects dlen 1, 3, 6
and a quantum that starts with padding). -/
def validDlen (dlen : Nat) : Bool :=
  dlen == 2 || dlen == 4 || dlen == 5 || dlen == 7 || dlen == 8

/-- Decode one eight-character quantum: data characters up to the first `=`,
the rest must all be padding; returns the bytes and whether padding was seen. -/
def decQuantum (cs : List Char) : Except String (List Nat × Bool) :=
  let data := cs.takeWhile (fun c => c != '=')
  let pad := cs.dropWhile (fun c => c != '=')
  if validDlen data.length = false then Except.error "illegal base32 data"
  else if pad.any (fun c => c != '=') then Except.error "illegal base32 data"
  else
    match decDigits data with
    | none => Except.error "illegal base32 data"
    | some ds => Except.ok ((decBytes ds).take (b32ByteLen data.length), data.length != 8)

/-- Base32-decode a character sequence quantum by quantum; a padded quantum
must be the last one, and the input length must be a multiple of eight:
Go's `base32.Encoding.DecodeString`. -/
def decodeChars : List Char → Except String (List Nat)
  | [] => Except.ok []
  | c0 :: c1 :: c2 :: c3 :: c4 :: c5 :: c6 :: c7 :: rest =>
    match decQuantum [c0, c1, c2, c3, c4, c5, c6, c7] with
    | Except.error e => Except.error e
    | Except.ok (bytes, padded) =>
      if padded then
        if rest.isEmpty then Except.ok bytes else Except.error "illegal base32 data"
      else
        match decodeChars rest with
        | Except.error e => Except.error e
        | Except.ok bs => Except.ok (bytes ++ bs)
  | _ => Except.error "illegal base32 data"

/-- String form of `decodeChars`, as consumed by `DecodeString`. -/
def decodeString (s : String) : Except String (List Nat) :=
  decodeChars s.data

/-- Byte serialization of a string, modelling Go's `[]byte(s)` (exact for the
ASCII identifiers this store produces). -/
def strBytes (s : String) : List Nat :=
  s.data.map (fun c => c.toNat % 256)

/-- Modelled from the spec: one output byte of the keyed message
authentication code (`constructMAC` is declared in this repository outside
src/).  The spec says only that a keyed MAC is computed over the
identifier's raw bytes, keyed by the encryption key; the claims proved here
depend on the MAC being a deterministic, byte-valued function of message and
key, so it is modelled as an explicit deterministic digest stand-in. -/
def macByte (message key : List Nat) (i : Nat) : Nat :=
  (message.foldl (fun a b => (a * 31 + b) % 256) (i * 17 + 1)
    + key.foldl (fun a b => (a * 37 + b + 7) % 256) (i * 13 + 5)) % 256

/-- Modelled from the spec: the keyed verification tag over the identifier's
raw bytes, keyed by the encryption key, with a fixed eight-byte digest. -/
def constructMAC (message key : List Nat) : List Nat :=
  [macByte message key 0, macByte message key 1, macByte message key 2,
   macByte message key 3, macByte message key 4, macByte message key 5,
   macByte message key 6, macByte message key 7]

/-- Modelled from the spec: `checkMAC` recomputes the MAC over the message
with the candidate key and compares it with the stored tag. -/
def checkMAC (message messageMAC key : List Nat) : Bool :=
  messageMAC == constructMAC message key

/-- ENCRYPTION_VERSION (src/paste.go line 17). -/
def ENCRYPTION_VERSION : String := "1"

/-- Key lengths accepted by `aes.NewCipher` (crypto/aes): 16, 24 or 32 bytes;
any other length yields a `KeySizeError` and a nil block cipher. -/
def validAESKeyLength (n : Nat) : Bool :=
  n == 16 || n == 24 || n == 32

/-- Modelled from the spec: the AES block cipher (crypto/aes, external to the
repository).  Every property proved here depends only on the block function
being a deterministic transformer of 16-byte blocks, so it is modelled as an
explicit deterministic stand-in rather than the AES round structure. -/
def aesEncryptBlock (key block : List Nat) : List Nat :=
  (List.range 16).map (fun i => ((block.getD i 0) * 3 + (key.getD (i % 16) 0) * 5 + i * 7 + 11) % 256)

/-- Output-feedback chain of cipher blocks starting from the all-zero
initialization vector `var iv [aes.BlockSize]byte` (src/paste.go lines
249 and 268): block 0 is the encryption of the IV, and each later block is
the encryption of the previous one (crypto/cipher's `NewOFB`). -/
def ofbBlock (key : List Nat) : Nat → List Nat
  | 0 => aesEncryptBlock key (List.replicate 16 0)
  | n + 1 => aesEncryptBlock key (ofbBlock key n)

/-- Byte `i` of the OFB keystream. -/
def ofbKeystreamByte (key : List Nat) (i : Nat) : Nat :=
  (ofbBlock key (i / 16)).getD (i % 16) 0

/-- XOR a byte sequence against the OFB keystream starting at stream offset
`off`: the transformation `cipher.StreamReader` / `cipher.StreamWriter`
apply to bytes passing through (identical for encryption and decryption). -/
def ofbApplyAt (key : List Nat) : Nat → List Nat → List Nat
  | _, [] => []
  | off, b :: rest => (b ^^^ ofbKeystreamByte key off) :: ofbApplyAt key (off + 1) rest

/-- Lookup in an association list, the map view of the filesystem and of a
unit's extended attributes. -/
def assocGet {α : Type} : List (String × α) → String → Option α
  | [], _ => none
  | (k, v) :: rest, key => if k = key then some v else assocGet rest key

/-- Insert or overwrite one binding of an association list. -/
def assocSet {α : Type} : List (String × α) → String → α → List (String × α)
  | [], key, value => [(key, value)]
  | (k, v) :: rest, key, value =>
    if k = key then (key, value) :: rest else (k, v) :: assocSet rest key value

/-- Remove every binding of a key, modelling `os.Remove` of a unit. -/
def assocRemove {α : Type} (m : List (String × α)) (key : String) : List (String × α) :=
  m.filter (fun kv => kv.1 != key)

/-- One storage unit: the raw content byte stream, its extended-attribute
side channel, and its modification time. -/
structure FileUnit where
  content : List Nat
  xattrs : List (String × String)
  mtime : Nat
deriving Repr, DecidableEq

/-- The filesystem under the store's root: filename to storage unit. -/
abbrev FS := List (String × FileUnit)

/-- FilesystemPasteStore (src/paste.go lines 109-113).  The two lifecycle
callbacks are arbitrary external functions, so each operation below reports
callback invocations explicitly in its result instead of storing them here. -/
structure FilesystemPasteStore where
  path : String
deriving Repr, DecidableEq

/-- filenameForID (src/paste.go lines 135-137): `filepath.Join(store.path, id)`
for a separator-free identifier is the root path, a slash, and the id. -/
def filenameForID (store : FilesystemPasteStore) (id : String) : String :=
  store.path ++ "/" ++ id

/-- putMetadata (src/paste.go lines 150-152): `xattr.Setxattr(fn,
"user.paste."+name, value, 0, 0)`, which fails when no unit exists at `fn`. -/
def putMetadata (fs : FS) (fn name value : String) : Except String FS :=
  match assocGet fs fn with
  | none => Except.error "setxattr: no such file or directory"
  | some u =>
    Except.ok (assocSet fs fn
      { u with xattrs := assocSet u.xattrs ("user.paste." ++ name) value })

/-- getMetadata (src/paste.go lines 154-161): a failed `Getxattr` (missing
unit or missing attribute) yields the default. -/
def getMetadata (fs : FS) (fn name dflt : String) : String :=
  match assocGet fs fn with
  | none => dflt
  | some u =>
    match assocGet u.xattrs ("user.paste." ++ name) with
    | none => dflt
    | some v => v

/-- Extended attributes already attached at a filename (kept by truncation). -/
def existingXattrs (fs : FS) (fn : String) : List (String × String) :=
  match assocGet fs fn with
  | none => []
  | some u => u.xattrs

/-- Modification time already recorded at a filename. -/
def existingMtime (fs : FS) (fn : String) : Nat :=
  match assocGet fs fn with
  | none => 0
  | some u => u.mtime

/-- Effect of `os.Create`: the unit at `fn` exists afterwards with empty
content; extended attributes of a pre-existing unit survive truncation. -/
def fsCreate (fs : FS) (fn : String) : FS :=
  assocSet fs fn { content := [], xattrs := existingXattrs fs fn, mtime := existingMtime fs fn }

/-- Paste (src/paste.go lines 78-86).  The Go struct's `store` back-reference
is passed explicitly to each operation; `encryptionKey` is a nilable slice. -/
structure Paste where
  ID : String
  Language : String
  mtime : Nat
  Encrypted : Bool
  encryptionKey : Option (List Nat)
deriving Repr, DecidableEq

/-- New (src/paste.go lines 139-148): in-memory construction only; a non-nil
key sets the encrypted flag and is retained in memory. -/
def New (store : FilesystemPasteStore) (id : String) (key : Option (List Nat)) : Paste :=
  { ID := id, Language := "", mtime := 0, Encrypted := key.isSome, encryptionKey := key }

/-- Error taxonomy of `Get` (src/paste.go lines 39-57 and 163-205):
`PasteNotFoundError`, `PasteEncryptedError`, `PasteInvalidKeyError`, and a
propagated base32 decode error. -/
inductive GetError where
  | notFound (id : String)
  | encrypted (id : String)
  | invalidKey (id : String)
  | decodeError (msg : String)
deriving Repr, DecidableEq

/-- Both named results `(p, err)` of Go's `Get`, plus the argument of the
`PasteUpdateCallback` invocation when one happened. -/
structure GetResult where
  p : Option Paste
  err : Option GetError
  updated : Option Paste
deriving Repr, DecidableEq

/-- Get (src/paste.go lines 163-205).  Stat failure is `PasteNotFoundError`.
A non-empty `hmac` attribute marks the paste encrypted: with no key the
encrypted error is recorded, yet control falls through, so the language is
still read, the update callback still runs, and the paste is still returned
alongside the error.  With a key, a tag that fails to base32-decode returns
that error, a MAC mismatch returns `PasteInvalidKeyError`, and a match
stores the key on the paste before the common fall-through. -/
def Get (store : FilesystemPasteStore) (fs : FS) (id : String) (key : Option (List Nat)) :
    GetResult :=
  let filename := filenameForID store id
  match assocGet fs filename with
  | none => { p := none, err := some (GetError.notFound id), updated := none }
  | some unit =>
    let hm := getMetadata fs filename "hmac" ""
    if hm = "" then
      let paste : Paste :=
        { ID := id, Language := getMetadata fs filename "language" "text",
          mtime := unit.mtime, Encrypted := false, encryptionKey := none }
      { p := some paste, err := none, updated := some paste }
    else
      match key with
      | none =>
        let paste : Paste :=
          { ID := id, Language := getMetadata fs filename "language" "text",
            mtime := unit.mtime, Encrypted := true, encryptionKey := none }
        { p := some paste, err := some (GetError.encrypted id), updated := some paste }
      | some k =>
        match decodeString hm with
        | Except.error e => { p := none, err := some (GetError.decodeError e), updated := none }
        | Except.ok hmacBytes =>
          if checkMAC (strBytes id) hmacBytes k then
            let paste : Paste :=
              { ID := id, Language := getMetadata fs filename "language" "text",
                mtime := unit.mtime, Encrypted := true, encryptionKey := some k }
            { p := some paste, err := none, updated := some paste }
          else { p := none, err := some (GetError.invalidKey id), updated := none }

/-- Result of `Save`: the filesystem reached (including partial progress when
a later write fails), the returned error, and whether the update callback
ran. -/
structure SaveResult where
  fs : FS
  err : Option String
  updateCalled : Bool
deriving Repr, DecidableEq

/-- Save (src/paste.go lines 207-227): write the language attribute; when the
paste is encrypted, also write the base32-encoded MAC of the identifier's
bytes keyed by the in-memory key, then the fixed version marker; any
attribute-write error returns immediately; the update callback runs only
after all writes succeed. -/
def Save (store : FilesystemPasteStore) (fs : FS) (p : Paste) : SaveResult :=
  let filename := filenameForID store p.ID
  match putMetadata fs filename "language" p.Language with
  | Except.error e => { fs := fs, err := some e, updateCalled := false }
  | Except.ok fs1 =>
    if p.Encrypted then
      let hmacBytes := constructMAC (strBytes p.ID) (p.encryptionKey.getD [])
      let hmac := encodeToString hmacBytes
      match putMetadata fs1 filename "hmac" hmac with
      | Except.error e => { fs := fs1, err := some e, updateCalled := false }
      | Except.ok fs2 =>
        match putMetadata fs2 filename "encryption_version" ENCRYPTION_VERSION with
        | Except.error e => { fs := fs2, err := some e, updateCalled := false }
        | Except.ok fs3 => { fs := fs3, err := none, updateCalled := true }
    else { fs := fs1, err := none, updateCalled := true }

/-- Result of `Destroy`: the filesystem reached, the returned error, and the
argument of the `PasteDestroyCallback` invocation when one happened. -/
structure DestroyResult where
  fs : FS
  err : Option String
  destroyed : Option Paste
deriving Repr, DecidableEq

/-- Destroy (src/paste.go lines 229-237): `os.Remove` of the unit; its error
(such as removing an absent unit) is returned before the callback runs; on
success the destroy callback runs. -/
def Destroy (store : FilesystemPasteStore) (fs : FS) (p : Paste) : DestroyResult :=
  match assocGet fs (filenameForID store p.ID) with
  | none => { fs := fs, err := some "remove: no such file or directory", destroyed := none }
  | some _ =>
    { fs := assocRemove fs (filenameForID store p.ID), err := none, destroyed := some p }

/-- Outcome of opening (and using) a content stream: success, a propagated
I/O error from `os.Open` / `os.Create`, or a runtime panic — the fate of
`cipher.NewOFB` when `aes.NewCipher` rejected the key and its discarded
error left the block cipher nil. -/
inductive StreamOutcome (α : Type) where
  | ok (a : α)
  | ioError (msg : String)
  | panicked
deriving Repr, DecidableEq

/-- readStream (src/paste.go lines 239-256) followed by reading the stream to
its end: open the unit (propagating the open error), and for an encrypted
paste pass the content through the OFB layer keyed by the in-memory key —
after `aes.NewCipher`'s error is discarded, a key of invalid length means
`cipher.NewOFB` is reached with a nil block cipher and panics. -/
def readStream (store : FilesystemPasteStore) (fs : FS) (p : Paste) :
    StreamOutcome (List Nat) :=
  match assocGet fs (filenameForID store p.ID) with
  | none => StreamOutcome.ioError "open: no such file or directory"
  | some u =>
    if p.Encrypted then
      if validAESKeyLength (p.encryptionKey.getD []).length then
        StreamOutcome.ok (ofbApplyAt (p.encryptionKey.getD []) 0 u.content)
      else StreamOutcome.panicked
    else StreamOutcome.ok u.content

/-- writeStream (src/paste.go lines 258-275): `os.Create` the unit, then for
an encrypted paste build the OFB layer, with the same discarded
`aes.NewCipher` error and the same panic on an invalid key length. -/
def writeStream (store : FilesystemPasteStore) (fs : FS) (p : Paste) :
    StreamOutcome FS :=
  let fs1 := fsCreate fs (filenameForID store p.ID)
  if p.Encrypted then
    if validAESKeyLength (p.encryptionKey.getD []).length then StreamOutcome.ok fs1
    else StreamOutcome.panicked
  else StreamOutcome.ok fs1

/-- One `Write` call on an open write stream: bytes are appended to the unit
after passing through the OFB layer at the stream's current offset (the
number of bytes already written, which is the unit's current length). -/
def writerWrite (store : FilesystemPasteStore) (fs : FS) (p : Paste) (data : List Nat) : FS :=
  match assocGet fs (filenameForID store p.ID) with
  | none => fs
  | some u =>
    let enc :=
      if p.Encrypted then ofbApplyAt (p.encryptionKey.getD []) u.content.length data else data
    assocSet fs (filenameForID store p.ID) { u with content := u.content ++ enc }

/-- Observable steps of `PasteWriter.Close`. -/
inductive CloseEvent where
  | saveCalled
  | underlyingClosed
deriving Repr, DecidableEq

/-- Result of `PasteWriter.Close`: the filesystem reached, the ordered
observable events, and the returned error. -/
structure CloseResult where
  fs : FS
  events : List CloseEvent
  err : Option String
deriving Repr, DecidableEq

/-- PasteWriter.Close (src/paste.go lines 73-76): `pr.paste.Save()` runs
first and its result is discarded; then the underlying `WriteCloser` is
closed and only that close result is returned. -/
def pasteWriterClose (store : FilesystemPasteStore) (p : Paste) (fs : FS)
    (underlyingCloseErr : Option String) : CloseResult :=
  let s := Save store fs p
  { fs := s.fs, events := [CloseEvent.saveCalled, CloseEvent.underlyingClosed],
    err := underlyingCloseErr }

/-- The write-side pipeline of the round-trip scenario: construct the paste
in memory (`New`), open the write stream, write the whole payload, and close
the stream (which saves metadata and closes the underlying file, whose close
succeeds). -/
def createWriteClose (store : FilesystemPasteStore) (fs : FS) (id : String)
    (key : Option (List Nat)) (payload : List Nat) : StreamOutcome FS :=
  let p := New store id key
  match writeStream store fs p with
  | StreamOutcome.ok fs1 =>
    let fs2 := writerWrite store fs1 p payload
    StreamOutcome.ok (pasteWriterClose store p fs2 none).fs
  | StreamOutcome.ioError e => StreamOutcome.ioError e
  | StreamOutcome.panicked => StreamOutcome.panicked

/-- generatePasteID (src/paste.go lines 125-133), parameterized by the
outcome of `rand.Read` on the 3-byte buffer: the bytes actually filled and
the error.  A short read or an error returns the error unchanged; otherwise
the identifier is the first five characters of the base32 encoding. -/
def generatePasteID (randBytes : List Nat) (randErr : Option String) :
    String × Option String :=
  if randBytes.length ≠ 3 ∨ randErr ≠ none then ("", randErr)
  else (String.mk ((encodeChars randBytes).take 5), none)

/-- Looking up the key just set yields the value just set. -/
theorem assocGet_assocSet_self {α : Type} (m : List (String × α)) (k : String) (v : α) :
    assocGet (assocSet m k v) k = some v := by
  induction m with
  | nil => simp [assocSet, assocGet]
  | cons kv rest ih =>
    obtain ⟨k0, v0⟩ := kv
    by_cases h : k0 = k
    · simp [assocSet, assocGet, h]
    · simp [assocSet, assocGet, h, ih]

/-- Setting one key leaves lookups of other keys unchanged. -/
theorem assocGet_assocSet_ne {α : Type} (m : List (String × α)) (k k2 : String) (v : α)
    (h : k2 ≠ k) : assocGet (assocSet m k v) k2 = assocGet m k2 := by
  have hne : ¬ k = k2 := fun hh => h hh.symm
  induction m with
  | nil => simp [assocSet, assocGet, hne]
  | cons kv rest ih =>
    obtain ⟨k0, v0⟩ := kv
    by_cases h0 : k0 = k
    · subst h0
      simp [assocSet, assocGet, hne]
    · simp [assocSet, assocGet, h0, ih]

/-- Setting the same key twice keeps only the second value. -/
theorem assocSet_assocSet_self {α : Type} (m : List (String × α)) (k : String) (v w : α) :
    assocSet (assocSet m k v) k w = assocSet m k w := by
  induction m with
  | nil => simp [assocSet]
  | cons kv rest ih =>
    obtain ⟨k0, v0⟩ := kv
    by_cases h : k0 = k
    · simp [assocSet, h]
    · simp [assocSet, h, ih]

/-- A removed key no longer resolves. -/
theorem assocGet_assocRemove_self {α : Type} (m : List (String × α)) (k : String) :
    assocGet (assocRemove m k) k = none := by
  induction m with
  | nil => simp [assocRemove, assocGet]
  | cons kv rest ih =>
    obtain ⟨k0, v0⟩ := kv
    by_cases h : k0 = k
    · simpa [assocRemove, assocGet, h] using ih
    · simpa [assocRemove, assocGet, h] using ih

/-- Applying the OFB key stream twice at the same offset is the identity. -/
theorem ofbApplyAt_involution (key : List Nat) (data : List Nat) (off : Nat) :
    ofbApplyAt key off (ofbApplyAt key off data) = data := by
  induction data generalizing off with
  | nil => simp [ofbApplyAt]
  | cons b rest ih => simp [ofbApplyAt, Nat.xor_cancel_right, ih]

/-- Every alphabet index below 32 resolves to an alphabet character. -/
theorem b32_getD_mem : ∀ q : Nat, q < 32 → b32Alphabet.getD q '?' ∈ b32Alphabet := by
  decide

/-- The decode map inverts the alphabet on indices below 32. -/
theorem b32CharIndex_getD : ∀ q : Nat, q < 32 →
    b32CharIndex (b32Alphabet.getD q '?') = some q := by
  decide

/-- No alphabet character is the padding character. -/
theorem b32_getD_ne_pad : ∀ q : Nat, q < 32 →
    ((b32Alphabet.getD q '?') != '=') = true := by
  decide

theorem decQuantum_chars8 (c0 c1 c2 c3 c4 c5 c6 c7 : Char) (q0 q1 q2 q3 q4 q5 q6 q7 : Nat)
    (n0 : (c0 != '=') = true) (n1 : (c1 != '=') = true) (n2 : (c2 != '=') = true)
    (n3 : (c3 != '=') = true) (n4 : (c4 != '=') = true) (n5 : (c5 != '=') = true)
    (n6 : (c6 != '=') = true) (n7 : (c7 != '=') = true)
    (m0 : b32CharIndex c0 = some q0) (m1 : b32CharIndex c1 = some q1)
    (m2 : b32CharIndex c2 = some q2) (m3 : b32CharIndex c3 = some q3)
    (m4 : b32CharIndex c4 = some q4) (m5 : b32CharIndex c5 = some q5)
    (m6 : b32CharIndex c6 = some q6) (m7 : b32CharIndex c7 = some q7) :
    decQuantum [c0, c1, c2, c3, c4, c5, c6, c7] =
      Except.ok ((decBytes [q0, q1, q2, q3, q4, q5, q6, q7]).take 5, false) := by
  simp [decQuantum, List.takeWhile, List.dropWhile, n0, n1, n2, n3, n4, n5, n6, n7,
    decDigits, m0, m1, m2, m3, m4, m5, m6, m7, validDlen, b32ByteLen]

theorem decQuantum_chars5 (c0 c1 c2 c3 c4 : Char) (q0 q1 q2 q3 q4 : Nat)
    (n0 : (c0 != '=') = true) (n1 : (c1 != '=') = true) (n2 : (c2 != '=') = true)
    (n3 : (c3 != '=') = true) (n4 : (c4 != '=') = true)
    (m0 : b32CharIndex c0 = some q0) (m1 : b32CharIndex c1 = some q1)
    (m2 : b32CharIndex c2 = some q2) (m3 : b32CharIndex c3 = some q3)
    (m4 : b32CharIndex c4 = some q4) :
    decQuantum [c0, c1, c2, c3, c4, '=', '=', '='] =
      Except.ok ((decBytes [q0, q1, q2, q3, q4]).take 3, true) := by
  simp [decQuantum, List.takeWhile, List.dropWhile, n0, n1, n2, n3, n4,
    decDigits, m0, m1, m2, m3, m4, validDlen, b32ByteLen]

theorem roundtrip_bytes5 (b0 b1 b2 b3 b4 : Nat) (h0 : b0 < 256) (h1 : b1 < 256)
    (h2 : b2 < 256) (h3 : b3 < 256) (h4 : b4 < 256) :
    (decBytes [b0 / 8, (b0 * 4 + b1 / 64) % 32, (b1 / 2) % 32, (b1 * 16 + b2 / 16) % 32,
        (b2 * 2 + b3 / 128) % 32, (b3 / 4) % 32, (b3 * 8 + b4 / 32) % 32, b4 % 32]).take 5
      = [b0, b1, b2, b3, b4] := by
  simp [decBytes]
  omega

theorem roundtrip_bytes3 (b0 b1 b2 : Nat) (h0 : b0 < 256) (h1 : b1 < 256) (h2 : b2 < 256) :
    (decBytes [b0 / 8, (b0 * 4 + b1 / 64) % 32, (b1 / 2) % 32, (b1 * 16 + b2 / 16) % 32,
        (b2 * 2 + 0 / 128) % 32]).take 3
      = [b0, b1, b2] := by
  simp [decBytes]
  omega

theorem encGroupChars_five (b0 b1 b2 b3 b4 : Nat) :
    encGroupChars [b0, b1, b2, b3, b4] =
      [b32Alphabet.getD (b0 / 8) '?',
       b32Alphabet.getD ((b0 * 4 + b1 / 64) % 32) '?',
       b32Alphabet.getD ((b1 / 2) % 32) '?',
       b32Alphabet.getD ((b1 * 16 + b2 / 16) % 32) '?',
       b32Alphabet.getD ((b2 * 2 + b3 / 128) % 32) '?',
       b32Alphabet.getD ((b3 / 4) % 32) '?',
       b32Alphabet.getD ((b3 * 8 + b4 / 32) % 32) '?',
       b32Alphabet.getD (b4 % 32) '?'] := rfl

theorem encGroupChars_three (b0 b1 b2 : Nat) :
    encGroupChars [b0, b1, b2] =
      [b32Alphabet.getD (b0 / 8) '?',
       b32Alphabet.getD ((b0 * 4 + b1 / 64) % 32) '?',
       b32Alphabet.getD ((b1 / 2) % 32) '?',
       b32Alphabet.getD ((b1 * 16 + b2 / 16) % 32) '?',
       b32Alphabet.getD ((b2 * 2 + 0 / 128) % 32) '?',
       '=', '=', '='] := rfl

theorem decodeChars_full_group (b0 b1 b2 b3 b4 : Nat) (h0 : b0 < 256) (h1 : b1 < 256)
    (h2 : b2 < 256) (h3 : b3 < 256) (h4 : b4 < 256) (rest : List Char) :
    decodeChars (encGroupChars [b0, b1, b2, b3, b4] ++ rest) =
      match decodeChars rest with
      | Except.ok bs => Except.ok ([b0, b1, b2, b3, b4] ++ bs)
      | Except.error e => Except.error e := by
  have hq := decQuantum_chars8
    (b32Alphabet.getD (b0 / 8) '?')
    (b32Alphabet.getD ((b0 * 4 + b1 / 64) % 32) '?')
    (b32Alphabet.getD ((b1 / 2) % 32) '?')
    (b32Alphabet.getD ((b1 * 16 + b2 / 16) % 32) '?')
    (b32Alphabet.getD ((b2 * 2 + b3 / 128) % 32) '?')
    (b32Alphabet.getD ((b3 / 4) % 32) '?')
    (b32Alphabet.getD ((b3 * 8 + b4 / 32) % 32) '?')
    (b32Alphabet.getD (b4 % 32) '?')
    (b0 / 8) ((b0 * 4 + b1 / 64) % 32) ((b1 / 2) % 32) ((b1 * 16 + b2 / 16) % 32)
    ((b2 * 2 + b3 / 128) % 32) ((b3 / 4) % 32) ((b3 * 8 + b4 / 32) % 32) (b4 % 32)
    (b32_getD_ne_pad _ (by omega)) (b32_getD_ne_pad _ (by omega))
    (b32_getD_ne_pad _ (by omega)) (b32_getD_ne_pad _ (by omega))
    (b32_getD_ne_pad _ (by omega)) (b32_getD_ne_pad _ (by omega))
    (b32_getD_ne_pad _ (by omega)) (b32_getD_ne_pad _ (by omega))
    (b32CharIndex_getD _ (by omega)) (b32CharIndex_getD _ (by omega))
    (b32CharIndex_getD _ (by omega)) (b32CharIndex_getD _ (by omega))
    (b32CharIndex_getD _ (by omega)) (b32CharIndex_getD _ (by omega))
    (b32CharIndex_getD _ (by omega)) (b32CharIndex_getD _ (by omega))
  rw [encGroupChars_five]
  simp only [List.cons_append, List.nil_append, decodeChars, hq,
    roundtrip_bytes5 b0 b1 b2 b3 b4 h0 h1 h2 h3 h4, List.append_eq]
  cases decodeChars rest <;> simp

theorem decodeChars_final_group3 (b0 b1 b2 : Nat) (h0 : b0 < 256) (h1 : b1 < 256)
    (h2 : b2 < 256) :
    decodeChars (encGroupChars [b0, b1, b2]) = Except.ok [b0, b1, b2] := by
  have hq := decQuantum_chars5
    (b32Alphabet.getD (b0 / 8) '?')
    (b32Alphabet.getD ((b0 * 4 + b1 / 64) % 32) '?')
    (b32Alphabet.getD ((b1 / 2) % 32) '?')
    (b32Alphabet.getD ((b1 * 16 + b2 / 16) % 32) '?')
    (b32Alphabet.getD ((b2 * 2 + 0 / 128) % 32) '?')
    (b0 / 8) ((b0 * 4 + b1 / 64) % 32) ((b1 / 2) % 32) ((b1 * 16 + b2 / 16) % 32)
    ((b2 * 2 + 0 / 128) % 32)
    (b32_getD_ne_pad _ (by omega)) (b32_getD_ne_pad _ (by omega))
    (b32_getD_ne_pad _ (by omega)) (b32_getD_ne_pad _ (by omega))
    (b32_getD_ne_pad _ (by omega))
    (b32CharIndex_getD _ (by omega)) (b32CharIndex_getD _ (by omega))
    (b32CharIndex_getD _ (by omega)) (b32CharIndex_getD _ (by omega))
    (b32CharIndex_getD _ (by omega))
  rw [encGroupChars_three]
  simp only [decodeChars, hq, roundtrip_bytes3 b0 b1 b2 h0 h1 h2, List.isEmpty_nil]
  rfl

theorem decodeChars_encodeChars_eight (x0 x1 x2 x3 x4 x5 x6 x7 : Nat)
    (h0 : x0 < 256) (h1 : x1 < 256) (h2 : x2 < 256) (h3 : x3 < 256)
    (h4 : x4 < 256) (h5 : x5 < 256) (h6 : x6 < 256) (h7 : x7 < 256) :
    decodeChars (encodeChars [x0, x1, x2, x3, x4, x5, x6, x7]) =
      Except.ok [x0, x1, x2, x3, x4, x5, x6, x7] := by
  have henc : encodeChars [x0, x1, x2, x3, x4, x5, x6, x7] =
      encGroupChars [x0, x1, x2, x3, x4] ++ encGroupChars [x5, x6, x7] := rfl
  rw [henc, decodeChars_full_group x0 x1 x2 x3 x4 h0 h1 h2 h3 h4,
    decodeChars_final_group3 x5 x6 x7 h5 h6 h7]
  simp

theorem b32_roundtrip_mac (message key : List Nat) :
    decodeString (encodeToString (constructMAC message key)) =
      Except.ok (constructMAC message key) := by
  have hb : ∀ i : Nat, macByte message key i < 256 := by
    intro i
    simp [macByte]
    omega
  exact decodeChars_encodeChars_eight (macByte message key 0) (macByte message key 1)
    (macByte message key 2) (macByte message key 3) (macByte message key 4)
    (macByte message key 5) (macByte message key 6) (macByte message key 7)
    (hb 0) (hb 1) (hb 2) (hb 3) (hb 4) (hb 5) (hb 6) (hb 7)

/-- Re-setting a key to the value it already holds changes nothing. -/
theorem assocSet_of_get_eq {α : Type} (m : List (String × α)) (k : String) (v : α)
    (h : assocGet m k = some v) : assocSet m k v = m := by
  induction m with
  | nil => simp [assocGet] at h
  | cons kv rest ih =>
    obtain ⟨k0, v0⟩ := kv
    by_cases e : k0 = k
    · subst e
      simp [assocGet] at h
      simp [assocSet, h]
    · simp [assocGet, e] at h
      simp [assocSet, e, ih h]

/-- putMetadata on an existing unit updates that unit's attribute map. -/
theorem putMetadata_found (fs : FS) (fn name value : String) (u : FileUnit)
    (h : assocGet fs fn = some u) :
    putMetadata fs fn name value =
      Except.ok (assocSet fs fn
        { u with xattrs := assocSet u.xattrs ("user.paste." ++ name) value }) := by
  simp [putMetadata, h]

/-- Save on an existing unit of an encrypted paste: the one filesystem write
is the unit's attribute map gaining the language, the encoded MAC under the
hmac name, and the version marker. -/
theorem Save_found_enc (store : FilesystemPasteStore) (fs : FS) (p : Paste) (u : FileUnit)
    (henc : p.Encrypted = true)
    (h : assocGet fs (filenameForID store p.ID) = some u) :
    Save store fs p =
      { fs := assocSet fs (filenameForID store p.ID)
          { u with xattrs :=
              (assocSet (assocSet (assocSet u.xattrs ("user.paste." ++ "language") p.Language)
                  ("user.paste." ++ "hmac")
                  (encodeToString (constructMAC (strBytes p.ID) (p.encryptionKey.getD []))))
                ("user.paste." ++ "encryption_version") ENCRYPTION_VERSION) },
        err := none, updateCalled := true } := by
  simp [Save, henc, putMetadata, h, assocGet_assocSet_self, assocSet_assocSet_self]

/-- Save on an existing unit of an unencrypted paste writes only the
language attribute. -/
theorem Save_found_plain (store : FilesystemPasteStore) (fs : FS) (p : Paste) (u : FileUnit)
    (henc : p.Encrypted = false)
    (h : assocGet fs (filenameForID store p.ID) = some u) :
    Save store fs p =
      { fs := assocSet fs (filenameForID store p.ID)
          { u with xattrs := assocSet u.xattrs ("user.paste." ++ "language") p.Language },
        err := none, updateCalled := true } := by
  simp [Save, henc, putMetadata, h]

/-- Save of an encrypted paste is a no-op when the unit's attributes already
hold exactly the three values Save writes. -/
theorem Save_enc_stable (store : FilesystemPasteStore) (fs : FS) (p : Paste) (A : FileUnit)
    (henc : p.Encrypted = true)
    (hL : assocGet A.xattrs ("user.paste." ++ "language") = some p.Language)
    (hH : assocGet A.xattrs ("user.paste." ++ "hmac") =
      some (encodeToString (constructMAC (strBytes p.ID) (p.encryptionKey.getD []))))
    (hV : assocGet A.xattrs ("user.paste." ++ "encryption_version") = some ENCRYPTION_VERSION)
    (h : assocGet fs (filenameForID store p.ID) = some A)
    (hfs : assocSet fs (filenameForID store p.ID) A = fs) :
    Save store fs p = { fs := fs, err := none, updateCalled := true } := by
  rw [Save_found_enc store fs p A henc h]
  rw [assocSet_of_get_eq _ _ _ hL, assocSet_of_get_eq _ _ _ hH, assocSet_of_get_eq _ _ _ hV]
  simp [hfs]

/-- C3: for every paste and every filesystem holding a unit for it, when the
paste is encrypted the entire effect of Save on persisted state is to set the
unit's language attribute, its hmac attribute to the base32-encoded keyed MAC
over the identifier's raw bytes keyed by the in-memory encryption key, and its
encryption_version attribute to the fixed marker "1"; content and mtime are
untouched and no other key-derived datum — in particular never the key
itself — is written. -/
theorem save_persists_only_tag_and_version (store : FilesystemPasteStore) (fs : FS)
    (p : Paste) (u : FileUnit) (henc : p.Encrypted = true)
    (h : assocGet fs (filenameForID store p.ID) = some u) :
    Save store fs p =
      { fs := assocSet fs (filenameForID store p.ID)
          { u with xattrs :=
              (assocSet (assocSet (assocSet u.xattrs ("user.paste." ++ "language") p.Language)
                  ("user.paste." ++ "hmac")
                  (encodeToString (constructMAC (strBytes p.ID) (p.encryptionKey.getD []))))
                ("user.paste." ++ "encryption_version") ENCRYPTION_VERSION) },
        err := none, updateCalled := true } ∧
    ENCRYPTION_VERSION = "1" :=
  ⟨Save_found_enc store fs p u henc h, rfl⟩

/-- C3 witness: the theorem applied at a concrete encrypted paste and unit. -/
theorem save_persists_only_tag_and_version_witness :
    Save ⟨"d"⟩ [("d/x", ⟨[42], [], 7⟩)] ⟨"x", "go", 0, true, some [1, 2]⟩ =
      { fs := assocSet [("d/x", ⟨[42], [], 7⟩)] (filenameForID ⟨"d"⟩ "x")
          ⟨[42],
           (assocSet (assocSet (assocSet [] ("user.paste." ++ "language") "go")
              ("user.paste." ++ "hmac")
              (encodeToString (constructMAC (strBytes "x") [1, 2])))
            ("user.paste." ++ "encryption_version") ENCRYPTION_VERSION),
           7⟩,
        err := none, updateCalled := true } :=
  (save_persists_only_tag_and_version ⟨"d"⟩ [("d/x", ⟨[42], [], 7⟩)]
    ⟨"x", "go", 0, true, some [1, 2]⟩ ⟨[42], [], 7⟩ rfl (by decide)).1

/-- String-literal inequalities between the three metadata attribute names. -/
theorem meta_name_ne_LV : ("user.paste." ++ "language") ≠ ("user.paste." ++ "encryption_version") := by
  decide

theorem meta_name_ne_LH : ("user.paste." ++ "language") ≠ ("user.paste." ++ "hmac") := by
  decide

theorem meta_name_ne_HV : ("user.paste." ++ "hmac") ≠ ("user.paste." ++ "encryption_version") := by
  decide

/-- C8: Save is idempotent on the metadata side channel: on a filesystem
holding a unit for the paste, the first Save succeeds, and a second Save with
the paste's fields unchanged writes the same value for every metadata key,
succeeds again, and leaves the persisted state exactly as the first left it. -/
theorem save_idempotent (store : FilesystemPasteStore) (fs : FS) (p : Paste) (u : FileUnit)
    (h : assocGet fs (filenameForID store p.ID) = some u) :
    (Save store fs p).err = none ∧
    Save store (Save store fs p).fs p =
      { fs := (Save store fs p).fs, err := none, updateCalled := true } := by
  by_cases henc : p.Encrypted = true
  · have h1 := Save_found_enc store fs p u henc h
    rw [h1]
    refine ⟨rfl, ?_⟩
    apply Save_enc_stable store _ p
      { u with xattrs :=
          (assocSet (assocSet (assocSet u.xattrs ("user.paste." ++ "language") p.Language)
              ("user.paste." ++ "hmac")
              (encodeToString (constructMAC (strBytes p.ID) (p.encryptionKey.getD []))))
            ("user.paste." ++ "encryption_version") ENCRYPTION_VERSION) }
      henc
    · simp only
      rw [assocGet_assocSet_ne _ _ _ _ meta_name_ne_LV, assocGet_assocSet_ne _ _ _ _ meta_name_ne_LH,
        assocGet_assocSet_self]
    · simp only
      rw [assocGet_assocSet_ne _ _ _ _ meta_name_ne_HV, assocGet_assocSet_self]
    · simp only
      rw [assocGet_assocSet_self]
    · exact assocGet_assocSet_self _ _ _
    · exact assocSet_assocSet_self _ _ _ _
  · have hf : p.Encrypted = false := by
      cases hb : p.Encrypted
      · rfl
      · exact absurd hb henc
    have h1 := Save_found_plain store fs p u hf h
    rw [h1]
    refine ⟨rfl, ?_⟩
    rw [Save_found_plain store _ p
      { u with xattrs := assocSet u.xattrs ("user.paste." ++ "language") p.Language } hf
      (assocGet_assocSet_self _ _ _)]
    simp [assocSet_assocSet_self]

/-- C8 witness: the theorem applied at a concrete paste and filesystem. -/
theorem save_idempotent_witness :
    (Save ⟨"d"⟩ [("d/x", ⟨[42], [], 7⟩)] ⟨"x", "go", 0, true, some [1, 2]⟩).err = none ∧
    Save ⟨"d"⟩ (Save ⟨"d"⟩ [("d/x", ⟨[42], [], 7⟩)] ⟨"x", "go", 0, true, some [1, 2]⟩).fs
        ⟨"x", "go", 0, true, some [1, 2]⟩ =
      { fs := (Save ⟨"d"⟩ [("d/x", ⟨[42], [], 7⟩)] ⟨"x", "go", 0, true, some [1, 2]⟩).fs,
        err := none, updateCalled := true } :=
  save_idempotent ⟨"d"⟩ [("d/x", ⟨[42], [], 7⟩)] ⟨"x", "go", 0, true, some [1, 2]⟩
    ⟨[42], [], 7⟩ (by decide)

/-- C2: classification of every Get outcome.  With no unit for the identifier
Get fails not-found whatever the key.  With a unit whose hmac attribute is
non-empty: a nil key fails encryption-required; a supplied key first base32-
decodes the stored tag, propagating a decode failure as that error; a decoded
tag that fails the MAC check fails invalid-key; and a tag that passes returns
a paste carrying the supplied key with no error. -/
theorem get_error_classification (store : FilesystemPasteStore) (fs : FS) (id : String)
    (key : Option (List Nat)) :
    (assocGet fs (filenameForID store id) = none →
      (Get store fs id key).err = some (GetError.notFound id) ∧ (Get store fs id key).p = none)
    ∧ (assocGet fs (filenameForID store id) ≠ none →
        getMetadata fs (filenameForID store id) "hmac" "" ≠ "" → key = none →
        (Get store fs id key).err = some (GetError.encrypted id))
    ∧ (∀ k e, assocGet fs (filenameForID store id) ≠ none →
        getMetadata fs (filenameForID store id) "hmac" "" ≠ "" → key = some k →
        decodeString (getMetadata fs (filenameForID store id) "hmac" "") = Except.error e →
        (Get store fs id key).err = some (GetError.decodeError e) ∧ (Get store fs id key).p = none)
    ∧ (∀ k bs, assocGet fs (filenameForID store id) ≠ none →
        getMetadata fs (filenameForID store id) "hmac" "" ≠ "" → key = some k →
        decodeString (getMetadata fs (filenameForID store id) "hmac" "") = Except.ok bs →
        checkMAC (strBytes id) bs k = false →
        (Get store fs id key).err = some (GetError.invalidKey id) ∧ (Get store fs id key).p = none)
    ∧ (∀ k bs, assocGet fs (filenameForID store id) ≠ none →
        getMetadata fs (filenameForID store id) "hmac" "" ≠ "" → key = some k →
        decodeString (getMetadata fs (filenameForID store id) "hmac" "") = Except.ok bs →
        checkMAC (strBytes id) bs k = true →
        (Get store fs id key).err = none ∧
        ∃ pp, (Get store fs id key).p = some pp ∧ pp.encryptionKey = some k) := by
  refine ⟨?_, ?_, ?_, ?_, ?_⟩
  · intro h
    simp [Get, h]
  · intro h hhm hk
    subst hk
    cases hu : assocGet fs (filenameForID store id) with
    | none => exact absurd hu h
    | some u => simp [Get, hu, hhm]
  · intro k e h hhm hk hdec
    subst hk
    cases hu : assocGet fs (filenameForID store id) with
    | none => exact absurd hu h
    | some u => simp [Get, hu, hhm, hdec]
  · intro k bs h hhm hk hdec hmac
    subst hk
    cases hu : assocGet fs (filenameForID store id) with
    | none => exact absurd hu h
    | some u => simp [Get, hu, hhm, hdec, hmac]
  · intro k bs h hhm hk hdec hmac
    subst hk
    cases hu : assocGet fs (filenameForID store id) with
    | none => exact absurd hu h
    | some u =>
      refine ⟨by simp [Get, hu, hhm, hdec, hmac], ?_⟩
      exact ⟨{ ID := id, Language := getMetadata fs (filenameForID store id) "language" "text",
               mtime := u.mtime, Encrypted := true, encryptionKey := some k },
             by simp [Get, hu, hhm, hdec, hmac], rfl⟩

/-- C7: a successful Destroy removes the storage unit, so a Get of the same
identifier afterwards fails not-found (with any key), and the destroy
callback runs with the paste; a failed removal (as when the unit is absent)
propagates the error, leaves the filesystem unchanged and never invokes the
callback; removal of an absent unit is such a failure. -/
theorem destroy_removes_unit (store : FilesystemPasteStore) (fs : FS) (p : Paste)
    (key : Option (List Nat)) :
    ((Destroy store fs p).err = none →
      (Get store (Destroy store fs p).fs p.ID key).err = some (GetError.notFound p.ID) ∧
      (Get store (Destroy store fs p).fs p.ID key).p = none ∧
      (Destroy store fs p).destroyed = some p)
    ∧ ((Destroy store fs p).err ≠ none →
        (Destroy store fs p).destroyed = none ∧ (Destroy store fs p).fs = fs)
    ∧ (assocGet fs (filenameForID store p.ID) = none → (Destroy store fs p).err ≠ none) := by
  cases hu : assocGet fs (filenameForID store p.ID) with
  | none => refine ⟨?_, ?_, ?_⟩ <;> simp [Destroy, hu]
  | some u =>
    refine ⟨?_, ?_, ?_⟩
    · intro _
      simp [Destroy, hu, Get, assocGet_assocRemove_self]
    · intro hne
      simp [Destroy, hu] at hne
    · intro h
      exact Option.noConfusion h

/-- C5 counterexample: on a unit carrying an hmac tag and a nil key, Get
returns the encryption-required error and yet the update callback was
invoked, so the callback is not invoked exactly on success. -/
theorem update_callback_on_encrypted_error :
    (Get ⟨"d"⟩ [("d/x", ⟨[], [("user.paste.hmac", "zz")], 0⟩)] "x" none).err =
      some (GetError.encrypted "x") ∧
    (Get ⟨"d"⟩ [("d/x", ⟨[], [("user.paste.hmac", "zz")], 0⟩)] "x" none).updated ≠ none := by
  decide

/-- C5 as amended: the update callback is invoked exactly when Get returns no
error or returns the encryption-required error (whose path falls through to
the callback); it is not invoked on not-found, tag-decode failure or
invalid-key, and its argument is always exactly the paste Get returns. -/
theorem update_callback_iff (store : FilesystemPasteStore) (fs : FS) (id : String)
    (key : Option (List Nat)) :
    ((Get store fs id key).updated ≠ none ↔
      ((Get store fs id key).err = none ∨
        (Get store fs id key).err = some (GetError.encrypted id)))
    ∧ (Get store fs id key).updated = (Get store fs id key).p := by
  cases hu : assocGet fs (filenameForID store id) with
  | none => simp [Get, hu]
  | some u =>
    by_cases hhm : getMetadata fs (filenameForID store id) "hmac" "" = ""
    · simp [Get, hu, hhm]
    · cases key with
      | none => simp [Get, hu, hhm]
      | some k =>
        cases hdec : decodeString (getMetadata fs (filenameForID store id) "hmac" "") with
        | error e => simp [Get, hu, hhm, hdec]
        | ok bs =>
          by_cases hmac : checkMAC (strBytes id) bs k = true
          · simp [Get, hu, hhm, hdec, hmac]
          · simp [Get, hu, hhm, hdec, hmac]

/-- C4 counterexample: closing a write stream yields the save event before
the underlying-close event, not the claimed close-before-persist order. -/
theorem close_order_counterexample :
    (pasteWriterClose ⟨"d"⟩ ⟨"x", "text", 0, false, none⟩ [] none).events =
      [CloseEvent.saveCalled, CloseEvent.underlyingClosed] ∧
    [CloseEvent.saveCalled, CloseEvent.underlyingClosed] ≠
      [CloseEvent.underlyingClosed, CloseEvent.saveCalled] := by
  decide

/-- C4 as amended: PasteWriter.Close first triggers the persist call on the
owning paste and only then closes the underlying raw content stream, so
metadata is written before the content stream is committed. -/
theorem close_saves_then_closes (store : FilesystemPasteStore) (p : Paste) (fs : FS)
    (uerr : Option String) :
    (pasteWriterClose store p fs uerr).events =
      [CloseEvent.saveCalled, CloseEvent.underlyingClosed] := rfl

/-- C10: PasteWriter.Close returns exactly the underlying stream's close
result, discarding the Save result: whenever Save fails at commit time,
Close still reports the underlying close's success. -/
theorem close_discards_save_error (store : FilesystemPasteStore) (p : Paste) (fs : FS)
    (uerr : Option String) :
    (pasteWriterClose store p fs uerr).err = uerr ∧
    ((Save store fs p).err ≠ none → (pasteWriterClose store p fs none).err = none) :=
  ⟨rfl, fun _ => rfl⟩

/-- C9: for an encrypted paste the cipher layer's error handling is implicit
in the key length: with a key of invalid AES length the discarded
`aes.NewCipher` error leaves a nil block cipher and both stream
constructors panic instead of returning a classified error (readStream
still reports the open error first when the unit is absent); with a key of
valid length neither stream constructor panics. -/
theorem stream_panics_on_invalid_key (store : FilesystemPasteStore) (fs : FS) (p : Paste)
    (k : List Nat) (henc : p.Encrypted = true) (hkey : p.encryptionKey = some k) :
    (validAESKeyLength k.length = false →
      writeStream store fs p = StreamOutcome.panicked ∧
      (assocGet fs (filenameForID store p.ID) ≠ none →
        readStream store fs p = StreamOutcome.panicked))
    ∧ (validAESKeyLength k.length = true →
      writeStream store fs p ≠ StreamOutcome.panicked ∧
      readStream store fs p ≠ StreamOutcome.panicked) := by
  constructor
  · intro hv
    constructor
    · simp [writeStream, henc, hkey, hv]
    · intro h
      cases hu : assocGet fs (filenameForID store p.ID) with
      | none => exact absurd hu h
      | some u => simp [readStream, henc, hkey, hv, hu]
  · intro hv
    constructor
    · simp [writeStream, henc, hkey, hv]
    · cases hu : assocGet fs (filenameForID store p.ID) with
      | none => simp [readStream, hu]
      | some u => simp [readStream, henc, hkey, hv, hu]

/-- C9 witness: a 3-byte key is rejected by aes.NewCipher and both stream
constructors panic on a concrete encrypted paste. -/
theorem stream_panics_on_invalid_key_witness :
    (⟨"x", "", 0, true, some [1, 2, 3]⟩ : Paste).Encrypted = true ∧
    validAESKeyLength ([1, 2, 3] : List Nat).length = false ∧
    writeStream ⟨"d"⟩ [("d/x", ⟨[], [], 0⟩)] ⟨"x", "", 0, true, some [1, 2, 3]⟩ =
      StreamOutcome.panicked ∧
    readStream ⟨"d"⟩ [("d/x", ⟨[], [], 0⟩)] ⟨"x", "", 0, true, some [1, 2, 3]⟩ =
      StreamOutcome.panicked := by
  have h := stream_panics_on_invalid_key ⟨"d"⟩ [("d/x", ⟨[], [], 0⟩)]
    ⟨"x", "", 0, true, some [1, 2, 3]⟩ [1, 2, 3] rfl rfl
  exact ⟨rfl, by decide, (h.1 (by decide)).1, (h.1 (by decide)).2 (by decide)⟩

/-- C6: an identifier generated from a full 3-byte random read with no error
is exactly five characters, every character drawn from the 32-character
alphabet, and is a deterministic function of the three bytes; a failing
random source propagates its error and yields no identifier. -/
theorem generate_paste_id_spec :
    (∀ b0 b1 b2 : Nat, b0 < 256 → b1 < 256 → b2 < 256 →
      (generatePasteID [b0, b1, b2] none).2 = none ∧
      (generatePasteID [b0, b1, b2] none).1.data.length = 5 ∧
      ∀ c ∈ (generatePasteID [b0, b1, b2] none).1.data, c ∈ b32Alphabet)
    ∧ (∀ (bs : List Nat) (e : String), generatePasteID bs (some e) = ("", some e)) := by
  constructor
  · intro b0 b1 b2 h0 h1 h2
    have hgen : generatePasteID [b0, b1, b2] none =
        (String.mk [b32Alphabet.getD (b0 / 8) '?',
          b32Alphabet.getD ((b0 * 4 + b1 / 64) % 32) '?',
          b32Alphabet.getD ((b1 / 2) % 32) '?',
          b32Alphabet.getD ((b1 * 16 + b2 / 16) % 32) '?',
          b32Alphabet.getD ((b2 * 2 + 0 / 128) % 32) '?'], none) := rfl
    rw [hgen]
    refine ⟨rfl, rfl, ?_⟩
    intro c hc
    simp only [List.mem_cons, List.not_mem_nil, or_false] at hc
    rcases hc with rfl | rfl | rfl | rfl | rfl <;> exact b32_getD_mem _ (by omega)
  · intro bs e
    simp [generatePasteID]

/-- An encoded MAC tag is never the empty string, so a saved encrypted paste
always carries a non-empty hmac attribute. -/
theorem encodeToString_mac_ne_empty (message key : List Nat) :
    encodeToString (constructMAC message key) ≠ "" := by
  intro h
  have h2 := b32_roundtrip_mac message key
  rw [h] at h2
  have h3 : decodeString "" = Except.ok [] := rfl
  rw [h3] at h2
  simp [constructMAC] at h2

/-- The write-side pipeline under a key of valid length: the unit ends up
holding the OFB-enciphered payload, with language, hmac and version
attributes written by the Save that Close triggers. -/
theorem createWriteClose_enc (store : FilesystemPasteStore) (fs : FS) (id : String)
    (K P : List Nat) (hK : validAESKeyLength K.length = true) :
    createWriteClose store fs id (some K) P =
      StreamOutcome.ok (assocSet fs (filenameForID store id)
        { content := ofbApplyAt K 0 P,
          xattrs := (assocSet (assocSet (assocSet (existingXattrs fs (filenameForID store id))
              ("user.paste." ++ "language") "")
              ("user.paste." ++ "hmac") (encodeToString (constructMAC (strBytes id) K)))
            ("user.paste." ++ "encryption_version") ENCRYPTION_VERSION),
          mtime := existingMtime fs (filenameForID store id) }) := by
  simp [createWriteClose, New, writeStream, hK, fsCreate, writerWrite,
    assocGet_assocSet_self, assocSet_assocSet_self, pasteWriterClose, Save, putMetadata]

/-- Fetching with the key whose MAC tag is stored on the unit succeeds and
returns a paste carrying that key. -/
theorem get_after_save_enc (store : FilesystemPasteStore) (fs2 : FS) (id : String)
    (K : List Nat) (U : FileUnit)
    (hu : assocGet fs2 (filenameForID store id) = some U)
    (hhm : assocGet U.xattrs ("user.paste." ++ "hmac") =
      some (encodeToString (constructMAC (strBytes id) K))) :
    (Get store fs2 id (some K)).err = none ∧
    ∃ pp, (Get store fs2 id (some K)).p = some pp ∧
      pp.ID = id ∧ pp.Encrypted = true ∧ pp.encryptionKey = some K := by
  have hhm2 : assocGet U.xattrs "user.paste.hmac" =
      some (encodeToString (constructMAC (strBytes id) K)) := hhm
  have hget : getMetadata fs2 (filenameForID store id) "hmac" "" =
      encodeToString (constructMAC (strBytes id) K) := by
    simp [getMetadata, hu, hhm2]
  have hne := encodeToString_mac_ne_empty (strBytes id) K
  have hdec := b32_roundtrip_mac (strBytes id) K
  have hmac : checkMAC (strBytes id) (constructMAC (strBytes id) K) K = true := by
    simp [checkMAC]
  refine ⟨by simp [Get, hu, hget, hne, hdec, hmac], ?_⟩
  exact ⟨{ ID := id, Language := getMetadata fs2 (filenameForID store id) "language" "text",
           mtime := U.mtime, Encrypted := true, encryptionKey := some K },
         by simp [Get, hu, hget, hne, hdec, hmac], rfl, rfl, rfl⟩

/-- Reading a unit whose content is the enciphered payload through the
cipher-wrapped read stream returns the payload. -/
theorem readStream_decrypts (store : FilesystemPasteStore) (fs2 : FS) (pp : Paste)
    (K P : List Nat) (U : FileUnit) (hK : validAESKeyLength K.length = true)
    (henc : pp.Encrypted = true) (hkey : pp.encryptionKey = some K)
    (hu : assocGet fs2 (filenameForID store pp.ID) = some U)
    (hcontent : U.content = ofbApplyAt K 0 P) :
    readStream store fs2 pp = StreamOutcome.ok P := by
  simp [readStream, hu, henc, hkey, hK, hcontent, ofbApplyAt_involution]

/-- C1: for every payload, identifier, starting filesystem and key of valid
AES length, creating a paste with the key, writing the payload through the
write stream and closing it leaves a filesystem on which a fetch with the
same key succeeds, and reading the returned paste's read stream to the end
yields exactly the payload: the OFB wrapping of writeStream and the
unwrapping of readStream, with the same key and the same all-zero IV,
compose to the identity on the byte stream. -/
theorem roundtrip_encrypted (store : FilesystemPasteStore) (fs : FS) (id : String)
    (K P : List Nat) (hK : validAESKeyLength K.length = true) :
    ∃ fsp, createWriteClose store fs id (some K) P = StreamOutcome.ok fsp ∧
      (Get store fsp id (some K)).err = none ∧
      ∃ pp, (Get store fsp id (some K)).p = some pp ∧
        readStream store fsp pp = StreamOutcome.ok P := by
  have hu : assocGet (assocSet fs (filenameForID store id)
      { content := ofbApplyAt K 0 P,
        xattrs := (assocSet (assocSet (assocSet (existingXattrs fs (filenameForID store id))
            ("user.paste." ++ "language") "")
            ("user.paste." ++ "hmac") (encodeToString (constructMAC (strBytes id) K)))
          ("user.paste." ++ "encryption_version") ENCRYPTION_VERSION),
        mtime := existingMtime fs (filenameForID store id) }) (filenameForID store id) =
      some ({ content := ofbApplyAt K 0 P,
              xattrs := (assocSet (assocSet (assocSet
                  (existingXattrs fs (filenameForID store id))
                  ("user.paste." ++ "language") "")
                  ("user.paste." ++ "hmac") (encodeToString (constructMAC (strBytes id) K)))
                ("user.paste." ++ "encryption_version") ENCRYPTION_VERSION),
              mtime := existingMtime fs (filenameForID store id) } : FileUnit) :=
    assocGet_assocSet_self _ _ _
  have hhm : assocGet (assocSet (assocSet (assocSet (existingXattrs fs (filenameForID store id))
        ("user.paste." ++ "language") "")
        ("user.paste." ++ "hmac") (encodeToString (constructMAC (strBytes id) K)))
      ("user.paste." ++ "encryption_version") ENCRYPTION_VERSION)
      ("user.paste." ++ "hmac") =
      some (encodeToString (constructMAC (strBytes id) K)) := by
    rw [assocGet_assocSet_ne _ _ _ _ meta_name_ne_HV, assocGet_assocSet_self]
  obtain ⟨herr, pp, hp, hpid, hencp, hkeyp⟩ := get_after_save_enc store _ id K _ hu hhm
  refine ⟨_, createWriteClose_enc store fs id K P hK, herr, pp, hp, ?_⟩
  apply readStream_decrypts store _ pp K P
    ({ content := ofbApplyAt K 0 P,
       xattrs := (assocSet (assocSet (assocSet (existingXattrs fs (filenameForID store id))
           ("user.paste." ++ "language") "")
           ("user.paste." ++ "hmac") (encodeToString (constructMAC (strBytes id) K)))
         ("user.paste." ++ "encryption_version") ENCRYPTION_VERSION),
       mtime := existingMtime fs (filenameForID store id) } : FileUnit)
    hK hencp hkeyp
  · rw [hpid]
    exact hu
  · rfl

/-- C1 witness: the round trip at a concrete identifier, 16-byte key and
2-byte payload. -/
theorem roundtrip_encrypted_witness :
    validAESKeyLength (List.replicate 16 0).length = true ∧
    ∃ fsp, createWriteClose ⟨"d"⟩ [] "abcde" (some (List.replicate 16 0)) [104, 105] =
        StreamOutcome.ok fsp ∧
      (Get ⟨"d"⟩ fsp "abcde" (some (List.replicate 16 0))).err = none ∧
      ∃ pp, (Get ⟨"d"⟩ fsp "abcde" (some (List.replicate 16 0))).p = some pp ∧
        readStream ⟨"d"⟩ fsp pp = StreamOutcome.ok [104, 105] :=
  ⟨by decide, roundtrip_encrypted ⟨"d"⟩ [] "abcde" (List.replicate 16 0) [104, 105] (by decide)⟩
